import Mathlib

/-!
Verification of the query-orchestration layer of a multi-system data
integration service (Router / Executor / LLMProxy glue and the agents'
shared filter logic), via a shallow embedding of the Python source.

Conventions of the embedding:
* Python `None` / missing dict keys become `Option`.
* Python string truthiness (`if s:`) is `optStrTruthy`; integer
  truthiness is `optIntTruthy`.
* Timestamps are abstracted as `Int` (milliseconds); the third-party
  ISO8601 parser `dateutil.parser.isoparse` is not part of the
  repository, so it is left as an explicit function parameter
  `parse : String → Option Int` (failure = exception = `Option.none`).
* Wall-clock measurements (`perf_counter` differences) are inputs to
  the executor model, carried on each task outcome.
-/

namespace UCAP

/-- Python string truthiness of an optional string value. -/
def optStrTruthy : Option String → Bool
  | Option.some s => !s.isEmpty
  | Option.none => false

/-- Python integer truthiness of an optional int value. -/
def optIntTruthy : Option Int → Bool
  | Option.some n => n != 0
  | Option.none => false

/-- Whether `small` occurs at the head of `big` (character lists). -/
def leadsWith : List Char → List Char → Bool
  | [], _ => true
  | _ :: _, [] => false
  | a :: as, b :: bs => a = b && leadsWith as bs

/-- Whether `small` occurs somewhere inside `big` (character lists). -/
def hasSub (small : List Char) : List Char → Bool
  | [] => small.isEmpty
  | b :: bs => leadsWith small (b :: bs) || hasSub small bs

/-- Substring test on strings: does `hay` contain `needle`? -/
def strContains (hay needle : String) : Bool :=
  hasSub needle.data hay.data

/-- Whitespace characters removed by Python `str.strip()`. -/
def isSpaceChar (c : Char) : Bool :=
  c = ' ' || c = '\t' || c = '\n' || c = '\r' || c = '\x0b' || c = '\x0c'

/-- Characters of Python `s.strip()`. -/
def trimChars (l : List Char) : List Char :=
  ((l.dropWhile isSpaceChar).reverse.dropWhile isSpaceChar).reverse

/-- Python `s.strip()`. -/
def pyStrip (s : String) : String :=
  String.mk (trimChars s.data)

/-- ASCII lowercasing of one character (identity beyond A-Z, as for the
CJK characters appearing in this code base). -/
def lowerChar (c : Char) : Char :=
  if 65 ≤ c.toNat && c.toNat ≤ 90 then Char.ofNat (c.toNat + 32) else c

/-- Python `s.lower()`. -/
def pyLower (s : String) : String :=
  String.mk (s.data.map lowerChar)

/-- Python `s.strip().lower()` as used by `Router.validate_systems`. -/
def normalizeKey (s : String) : String :=
  pyLower (pyStrip s)

/-- `SUPPORTED_SYSTEMS` keys of `src/orchestrator/router.py`, in dict
insertion order. -/
def SUPPORTED_SYSTEM_KEYS : List String := ["erp", "hr", "fin"]

/-- `SUPPORTED_ENTITY_TYPES` of `src/orchestrator/router.py`. -/
def SUPPORTED_ENTITY_TYPES : List String :=
  ["organizations", "persons", "customers", "transactions"]

/-- The warning `Router.validate_systems` records for an unknown entry. -/
def unknownSystemWarn (s : String) : String :=
  "Router: 未知系统值 \x27" ++ s ++ "\x27，已忽略"

/-- The warning `Router.validate_systems` records when every entry was
dropped and the selection degrades to all systems. -/
def degradeWarn : String := "Router: 有效系统为空，降级为全部系统"

/-- The single pass of `Router.validate_systems` that keeps normalized
known keys and records one warning per unknown entry. -/
def collectSystems : List String → List String × List String
  | [] => ([], [])
  | s :: rest =>
    let r := collectSystems rest
    let key := normalizeKey s
    if key ∈ SUPPORTED_SYSTEM_KEYS then (key :: r.1, r.2)
    else (r.1, unknownSystemWarn s :: r.2)

/-- Order-preserving deduplication with a seen accumulator, as the loop
in `Router.validate_systems` does. -/
def dedupStringsAux (seen : List String) : List String → List String
  | [] => []
  | s :: rest =>
    if s ∈ seen then dedupStringsAux seen rest
    else s :: dedupStringsAux (s :: seen) rest

/-- Order-preserving deduplication keeping first occurrences. -/
def dedupStrings (l : List String) : List String :=
  dedupStringsAux [] l

/-- `Router.validate_systems` (src/orchestrator/router.py, lines 50-86):
returns the resolved system keys and the warning list. -/
def validate_systems (systems : Option (List String)) : List String × List String :=
  match systems with
  | Option.none => (SUPPORTED_SYSTEM_KEYS, [])
  | Option.some ss =>
    if ss.isEmpty then (SUPPORTED_SYSTEM_KEYS, [])
    else
      let c := collectSystems ss
      let uniq := dedupStrings c.1
      if uniq.isEmpty then (SUPPORTED_SYSTEM_KEYS, c.2 ++ [degradeWarn])
      else (uniq, c.2)

/-- A Python value as it can occur in a raw filter dict: an int, a
string, or `None`. -/
inductive PyVal where
  | int (n : Int)
  | str (s : String)
  | pnone
deriving DecidableEq, Repr

/-- Python `str(v)` for the values we model (used inside f-string
warnings). -/
def pyValDisplay : PyVal → String
  | PyVal.int n => toString n
  | PyVal.str s => s
  | PyVal.pnone => "None"

/-- Python `type(v).__name__` for the values we model. -/
def pyTypeName : PyVal → String
  | PyVal.int _ => "int"
  | PyVal.str _ => "str"
  | PyVal.pnone => "NoneType"

/-- Decimal digit run to a number; `Option.none` when a non-digit
occurs. -/
def digitsValAux (acc : Nat) : List Char → Option Nat
  | [] => Option.some acc
  | c :: cs =>
    if c.isDigit then digitsValAux (acc * 10 + (c.toNat - 48)) cs
    else Option.none

/-- Nonempty all-digit run to a number. -/
def pyDigits (cs : List Char) : Option Nat :=
  if cs.isEmpty then Option.none else digitsValAux 0 cs

/-- Python `int(s)` on a string: surrounding whitespace stripped, an
optional sign, then decimal digits; `Option.none` models the raised
`ValueError`. -/
def pyStrInt (s : String) : Option Int :=
  match trimChars s.data with
  | '+' :: cs => (pyDigits cs).map Int.ofNat
  | '-' :: cs => (pyDigits cs).map (fun n => -(Int.ofNat n))
  | cs => (pyDigits cs).map Int.ofNat

/-- Python `int(v)`; `Option.none` models the raised exception. -/
def pyIntOf : PyVal → Option Int
  | PyVal.int n => Option.some n
  | PyVal.str s => pyStrInt s
  | PyVal.pnone => Option.none

/-- The raw filter dict handed to `Router.validate_filter_params`;
`Option.none` in a field means the key is absent. -/
structure RawFilter where
  entity_type : Option PyVal := Option.none
  date_from : Option PyVal := Option.none
  date_to : Option PyVal := Option.none
  limit : Option PyVal := Option.none
deriving DecidableEq, Repr

/-- Warning recorded when an unknown `entity_type` is removed. -/
def entityTypeWarn (v : PyVal) : String :=
  "Router: 非法 entity_type \x27" ++ pyValDisplay v ++ "\x27, 已移除"

/-- Warning recorded when an invalid `limit` is removed. -/
def limitWarn (v : PyVal) : String :=
  "Router: 非法 limit 值 \x27" ++ pyValDisplay v ++ "\x27, 已移除"

/-- Debug note recorded when a date bound is not a string. -/
def dateTypeWarn (key : String) (v : PyVal) : String :=
  "Router: " ++ key ++ " 建议为字符串（ISO8601），当前类型为 " ++ pyTypeName v

/-- Whether a `PyVal` is a Python `str`. -/
def isPyStr : PyVal → Bool
  | PyVal.str _ => true
  | _ => false

/-- `Router.validate_filter_params` (src/orchestrator/router.py, lines
88-135): normalizes `entity_type` and `limit`, records the warnings in
source order, and passes the date bounds through unaltered (only a
type-hint note is appended for non-string bounds). -/
def validate_filter_params (fp : RawFilter) : RawFilter × List String :=
  let etStep : Option PyVal × List String :=
    match fp.entity_type with
    | Option.none => (Option.none, [])
    | Option.some v =>
      if v = PyVal.pnone then (Option.some v, [])
      else
        let s := pyLower (pyStrip (pyValDisplay v))
        if s ∈ SUPPORTED_ENTITY_TYPES then (Option.some (PyVal.str s), [])
        else (Option.none, [entityTypeWarn v])
  let limStep : Option PyVal × List String :=
    match fp.limit with
    | Option.none => (Option.none, [])
    | Option.some v =>
      match pyIntOf v with
      | Option.some n =>
        if n ≤ 0 then (Option.none, [limitWarn v])
        else (Option.some (PyVal.int n), [])
      | Option.none => (Option.none, [limitWarn v])
  let wFrom : List String :=
    match fp.date_from with
    | Option.some v =>
      if v ≠ PyVal.pnone && !isPyStr v then [dateTypeWarn "date_from" v] else []
    | Option.none => []
  let wTo : List String :=
    match fp.date_to with
    | Option.some v =>
      if v ≠ PyVal.pnone && !isPyStr v then [dateTypeWarn "date_to" v] else []
    | Option.none => []
  ({ fp with entity_type := etStep.1, limit := limStep.1 },
   etStep.2 ++ limStep.2 ++ wFrom ++ wTo)

/-- A normalized entity as the executor and filter logic see it: its
declared primary-key attribute (`org_id` / `person_id` / `customer_id`
/ `tx_id` depending on the list it sits in; `Option.none` models the
attribute being `None` or missing) and its time attributes, abstracted
to integer timestamps. -/
structure Entity where
  pk : Option String
  hireDate : Option Int
  txDate : Option Int
  createdAt : Option Int
deriving DecidableEq, Repr

/-- Whether the entity's key is Python-falsy (`None` or empty string),
which `Executor._dedup_list_by_id` treats as "no key". -/
def entKeyless (e : Entity) : Bool :=
  match e.pk with
  | Option.none => true
  | Option.some k => k.isEmpty

/-- The entity's truthy key, if it has one. -/
def entKey (e : Entity) : Option String :=
  match e.pk with
  | Option.some k => if k.isEmpty then Option.none else Option.some k
  | Option.none => Option.none

/-- The seen-set loop of `Executor._dedup_list_by_id`
(src/orchestrator/executor.py, lines 38-50). -/
def dedupByIdAux (seen : List String) : List Entity → List Entity
  | [] => []
  | e :: rest =>
    match e.pk with
    | Option.none => e :: dedupByIdAux seen rest
    | Option.some k =>
      if k.isEmpty then e :: dedupByIdAux seen rest
      else if k ∈ seen then dedupByIdAux seen rest
      else e :: dedupByIdAux (k :: seen) rest

/-- `Executor._dedup_list_by_id`: keep the first occurrence of each
truthy key, pass falsy-keyed entities through unfiltered. -/
def dedup_list_by_id (l : List Entity) : List Entity :=
  dedupByIdAux [] l

/-- The four entity lists returned by an agent
(`{"organizations": …, "persons": …, "customers": …,
"transactions": …}`). -/
structure Bundle where
  organizations : List Entity
  persons : List Entity
  customers : List Entity
  transactions : List Entity
deriving DecidableEq, Repr

/-- The empty bundle. -/
def emptyBundle : Bundle := ⟨[], [], [], []⟩

/-- The per-source dedup step of `Executor._safe_query`
(src/orchestrator/executor.py, lines 66-76): each list is deduplicated
by its own declared primary-key field, within this source only. -/
def dedupBundle (b : Bundle) : Bundle :=
  ⟨dedup_list_by_id b.organizations,
   dedup_list_by_id b.persons,
   dedup_list_by_id b.customers,
   dedup_list_by_id b.transactions⟩

/-- Per-entity-type counts of a source outcome. -/
structure Counts where
  organizations : Nat
  persons : Nat
  customers : Nat
  transactions : Nat
deriving DecidableEq, Repr

/-- All-zero counts, recorded for failed or timed-out sources. -/
def zeroCounts : Counts := ⟨0, 0, 0, 0⟩

/-- Counts of a bundle: the lengths of its four lists, as
`Executor._safe_query` records them after dedup. -/
def bundleCounts (b : Bundle) : Counts :=
  ⟨b.organizations.length, b.persons.length,
   b.customers.length, b.transactions.length⟩

/-- A selected source: its metrics key (`str(system_type.value).lower()`,
one of erp/hr/fin) and its display name (`system_name`, e.g.
"ERP系统" / "HR系统" / "财务系统"). -/
structure AgentSpec where
  key : String
  name : String
deriving DecidableEq, Repr

/-- How one source's `_safe_query` task ended, as `Executor.execute`
observes it at the shared deadline: completed with deduplicatable data
and a measured duration, completed with a caught error message and a
measured duration, or still pending (timed out). -/
inductive QueryOutcome where
  | ok (data : Bundle) (durMs : Int)
  | fail (msg : String) (durMs : Int)
  | pending
deriving DecidableEq, Repr

/-- Whether the outcome is a success. -/
def isOk : QueryOutcome → Bool
  | QueryOutcome.ok _ _ => true
  | _ => false

/-- Whether the task was still pending at the deadline. -/
def isPend : QueryOutcome → Bool
  | QueryOutcome.pending => true
  | _ => false

/-- The measured duration of a completed task. -/
def durOf : QueryOutcome → Option Int
  | QueryOutcome.ok _ d => Option.some d
  | QueryOutcome.fail _ d => Option.some d
  | QueryOutcome.pending => Option.none

/-- Python dict assignment `m[k] = v`: replace in place when the key
exists, else append preserving insertion order. -/
def dictSet {α : Type} (m : List (String × α)) (k : String) (v : α) :
    List (String × α) :=
  if m.any (fun p => p.1 = k) then
    m.map (fun p => if p.1 = k then (k, v) else p)
  else m ++ [(k, v)]

/-- Python dict lookup `m.get(k)`. -/
def dictGet {α : Type} (m : List (String × α)) (k : String) : Option α :=
  (m.find? (fun p => p.1 = k)).map Prod.snd

/-- The unified result of `Executor.execute`: the four aggregate entity
collections, the error strings, and the metrics record (per-source
durations and counts as Python dicts, success/failure tallies). -/
structure ExecResult where
  organizations : List Entity
  persons : List Entity
  customers : List Entity
  transactions : List Entity
  errors : List String
  perDur : List (String × Int)
  perCounts : List (String × Counts)
  successCount : Nat
  failCount : Nat
deriving DecidableEq, Repr

/-- The empty accumulator `Executor.execute` starts from. -/
def initResult : ExecResult := ⟨[], [], [], [], [], [], [], 0, 0⟩

/-- The timeout error string of src/orchestrator/executor.py line 169:
`f"{agent.system_name} 查询超时（>{timeout_ms}ms）"`. -/
def timeoutMsg (name : String) (timeoutMs : Int) : String :=
  name ++ " 查询超时（>" ++ toString timeoutMs ++ "ms）"

/-- Processing of one completed future (executor.py lines 147-161): a
success contributes its deduplicated lists to the aggregate by
concatenation; a failure contributes its error string; both record
duration and counts under the source's metrics key. -/
def stepDone (acc : ExecResult) (p : AgentSpec × QueryOutcome) : ExecResult :=
  match p.2 with
  | QueryOutcome.ok data dur =>
    let d := dedupBundle data
    { acc with
      organizations := acc.organizations ++ d.organizations
      persons := acc.persons ++ d.persons
      customers := acc.customers ++ d.customers
      transactions := acc.transactions ++ d.transactions
      perDur := dictSet acc.perDur p.1.key dur
      perCounts := dictSet acc.perCounts p.1.key (bundleCounts d)
      successCount := acc.successCount + 1 }
  | QueryOutcome.fail msg dur =>
    { acc with
      errors := acc.errors ++ [msg]
      perDur := dictSet acc.perDur p.1.key dur
      perCounts := dictSet acc.perCounts p.1.key zeroCounts
      failCount := acc.failCount + 1 }
  | QueryOutcome.pending => acc

/-- Processing of one pending future (executor.py lines 164-179):
record the timeout error, the deadline as the duration, zero counts and
a failure. -/
def stepPending (timeoutMs : Int) (acc : ExecResult)
    (p : AgentSpec × QueryOutcome) : ExecResult :=
  { acc with
    errors := acc.errors ++ [timeoutMsg p.1.name timeoutMs]
    perDur := dictSet acc.perDur p.1.key timeoutMs
    perCounts := dictSet acc.perCounts p.1.key zeroCounts
    failCount := acc.failCount + 1 }

/-- The tasks found completed at the deadline (the `done` set of
executor.py line 144). -/
def donePart (tasks : List (AgentSpec × QueryOutcome)) :
    List (AgentSpec × QueryOutcome) :=
  tasks.filter (fun p => !isPend p.2)

/-- The tasks still pending at the deadline (the `pending` set of
executor.py line 144). -/
def pendPart (tasks : List (AgentSpec × QueryOutcome)) :
    List (AgentSpec × QueryOutcome) :=
  tasks.filter (fun p => isPend p.2)

/-- `Executor.execute` (src/orchestrator/executor.py, lines 96-200):
process the completed futures, then the pending ones. The input list
order stands for the (unspecified) set-iteration order of the `done`
and `pending` sets. -/
def execute (timeoutMs : Int) (tasks : List (AgentSpec × QueryOutcome)) :
    ExecResult :=
  (pendPart tasks).foldl (stepPending timeoutMs)
    ((donePart tasks).foldl stepDone initResult)

/-- The error message a completed-but-failed task contributes. -/
def failMsgOf (p : AgentSpec × QueryOutcome) : Option String :=
  match p.2 with
  | QueryOutcome.fail m _ => Option.some m
  | _ => Option.none

/-- The metrics-dict key of a task. -/
def taskKey (p : AgentSpec × QueryOutcome) : String := p.1.key

/-- The duration entry a completed task contributes to
`per_agent_duration_ms`. -/
def doneDurEntry (p : AgentSpec × QueryOutcome) : String × Int :=
  (p.1.key, (durOf p.2).getD 0)

/-- The counts entry a task contributes to `per_agent_result_counts`:
deduplicated lengths on success, zeros otherwise. -/
def countsEntryOf (p : AgentSpec × QueryOutcome) : String × Counts :=
  (p.1.key,
   match p.2 with
   | QueryOutcome.ok d _ => bundleCounts (dedupBundle d)
   | _ => zeroCounts)

/-- The four entity-collection keys of the canonical data dict. -/
inductive EntityKind where
  | organizations
  | persons
  | customers
  | transactions
deriving DecidableEq, Repr

/-- The dict key string of an entity kind. -/
def kindKey : EntityKind → String
  | EntityKind.organizations => "organizations"
  | EntityKind.persons => "persons"
  | EntityKind.customers => "customers"
  | EntityKind.transactions => "transactions"

/-- Projection of a bundle at an entity kind. -/
def bundleGet (k : EntityKind) (b : Bundle) : List Entity :=
  match k with
  | EntityKind.organizations => b.organizations
  | EntityKind.persons => b.persons
  | EntityKind.customers => b.customers
  | EntityKind.transactions => b.transactions

/-- Projection of an executor result at an entity kind. -/
def resGet (k : EntityKind) (r : ExecResult) : List Entity :=
  match k with
  | EntityKind.organizations => r.organizations
  | EntityKind.persons => r.persons
  | EntityKind.customers => r.customers
  | EntityKind.transactions => r.transactions

/-- The deduplicated entity list (at one entity kind) a successful task
contributes to the aggregate. -/
def okListOf (k : EntityKind) (p : AgentSpec × QueryOutcome) :
    Option (List Entity) :=
  match p.2 with
  | QueryOutcome.ok d _ => Option.some (bundleGet k (dedupBundle d))
  | _ => Option.none

/-- The filter dict as `BaseAgent._apply_filters` consumes it after the
Router normalized it: an optional entity-type string, optional date
bound strings, an optional integer cap. -/
structure Filters where
  entityType : Option String := Option.none
  dateFrom : Option String := Option.none
  dateTo : Option String := Option.none
  limit : Option Int := Option.none
deriving DecidableEq, Repr

/-- `get_item_time` of `BaseAgent._apply_filters` (src/agents/base.py,
lines 251-262): persons use `hire_date`, transactions use `tx_date`,
everything else (and any entity whose domain field is `None`) falls
back to `created_at`. -/
def getItemTime (k : EntityKind) (it : Entity) : Option Int :=
  if k = EntityKind.persons then
    match it.hireDate with
    | Option.some t => Option.some t
    | Option.none => it.createdAt
  else if k = EntityKind.transactions then
    match it.txDate with
    | Option.some t => Option.some t
    | Option.none => it.createdAt
  else it.createdAt

/-- The bound-parsing `try` block of `BaseAgent._apply_filters`
(src/agents/base.py, lines 232-243): parse the present bounds in order;
any parse failure resets BOTH bounds to `None`. `parse` stands for the
library function `dateutil.parser.isoparse` (not part of this
repository), with `Option.none` modelling the raised exception. -/
def resolveBounds (parse : String → Option Int) (df dt : Option String) :
    Option Int × Option Int :=
  if optStrTruthy df then
    match parse (df.getD "") with
    | Option.none => (Option.none, Option.none)
    | Option.some a =>
      if optStrTruthy dt then
        match parse (dt.getD "") with
        | Option.none => (Option.none, Option.none)
        | Option.some b => (Option.some a, Option.some b)
      else (Option.some a, Option.none)
  else if optStrTruthy dt then
    match parse (dt.getD "") with
    | Option.none => (Option.none, Option.none)
    | Option.some b => (Option.none, Option.some b)
  else (Option.none, Option.none)

/-- Whether a timestamp survives the date-range test (base.py lines
270-273: skip when `t < date_from` or `t > date_to`). -/
def inBounds (a b : Option Int) (t : Int) : Bool :=
  (match a with
   | Option.some x => decide (x ≤ t)
   | Option.none => true) &&
  (match b with
   | Option.some y => decide (t ≤ y)
   | Option.none => true)

/-- Python slice `xs[:n]`, including the negative-index case. -/
def pySlice {α : Type} (xs : List α) (n : Int) : List α :=
  if 0 ≤ n then xs.take n.toNat
  else xs.take (xs.length - (-n).toNat)

/-- One entity list through `BaseAgent._apply_filters` (src/agents/
base.py, lines 222-282): entity-type restriction, then the date-range
filter (entities with no resolvable time are dropped), then the cap. -/
def filterList (parse : String → Option Int) (f : Filters)
    (k : EntityKind) (items : List Entity) : List Entity :=
  let fi1 :=
    if optStrTruthy f.entityType && (f.entityType.getD "" != kindKey k) then
      ([] : List Entity)
    else items
  let fi2 :=
    if !fi1.isEmpty && (optStrTruthy f.dateFrom || optStrTruthy f.dateTo) then
      let ab := resolveBounds parse f.dateFrom f.dateTo
      if ab.1.isSome || ab.2.isSome then
        fi1.filter (fun it =>
          match getItemTime k it with
          | Option.none => false
          | Option.some t => inBounds ab.1 ab.2 t)
      else fi1
    else fi1
  if !fi2.isEmpty && optIntTruthy f.limit then pySlice fi2 (f.limit.getD 0)
  else fi2

/-- `BaseAgent._apply_filters` over the whole canonical-data dict. -/
def apply_filters (parse : String → Option Int) (f : Filters) (b : Bundle) :
    Bundle :=
  ⟨filterList parse f EntityKind.organizations b.organizations,
   filterList parse f EntityKind.persons b.persons,
   filterList parse f EntityKind.customers b.customers,
   filterList parse f EntityKind.transactions b.transactions⟩

/-- `final_systems = systems if systems else inferred_sys` of `nl_query`
(src/orchestrator/__init__.py, line 99): Python truthiness, so an
explicit empty list also falls back to the inferred one. -/
def nlFinalSystems (systems : Option (List String))
    (inferredSys : Option (List String)) : Option (List String) :=
  match systems with
  | Option.some l => if l.isEmpty then inferredSys else Option.some l
  | Option.none => inferredSys

/-- The timeout selection of `nl_query` (src/orchestrator/__init__.py,
lines 102-104): start from the caller's `timeout_ms`, then, whenever the
inference produced an integer `timeout_ms`, replace it by that value
clamped to [50, 60000]. -/
def nlFinalTimeout (timeoutMs : Int) (inferredTimeout : Option Int) : Int :=
  match inferredTimeout with
  | Option.some t => max 50 (min 60000 t)
  | Option.none => timeoutMs

/-- An inferred or model-returned date range (only the two date keys of
the filter dict matter for the time-anchor logic). -/
structure TimeRange where
  dateFrom : Option String := Option.none
  dateTo : Option String := Option.none
deriving DecidableEq, Repr

/-- Warning of src/orchestrator/llm_proxy.py line 507 (override path). -/
def overrideWarn : String := "LLM 时间感知纠偏：覆盖 LLM 时间区间为服务端计算值"

/-- Warning of src/orchestrator/llm_proxy.py line 516 (gap-fill path),
appended once per actually filled key. -/
def fillWarn : String := "LLM 时间感知纠偏关闭：仅补齐缺失的时间字段"

/-- The time-anchor correction block of `LLMProxy.infer`
(src/orchestrator/llm_proxy.py, lines 495-529), restricted to the date
fields: `fp` is the model's normalized range, `fb` the deterministic
fallback recognizer's range, `wfb` the recognizer's own diagnostics
(appended at line 529), `enh` the global `enable_time_enhancements`
switch. Returns the final range, the warnings this block appends in
order, and the `time_anchor_override_used` flag. -/
def timeAnchor (enh : Bool) (fp fb : TimeRange) (wfb : List String) :
    TimeRange × List String × Bool :=
  let fallbackHasTime := optStrTruthy fb.dateFrom && optStrTruthy fb.dateTo
  if fallbackHasTime then
    if enh then
      ({ dateFrom := fb.dateFrom, dateTo := fb.dateTo },
       overrideWarn :: wfb, true)
    else
      let fStep :=
        if fp.dateFrom.isNone && optStrTruthy fb.dateFrom then
          (fb.dateFrom, [fillWarn])
        else (fp.dateFrom, ([] : List String))
      let tStep :=
        if fp.dateTo.isNone && optStrTruthy fb.dateTo then
          (fb.dateTo, [fillWarn])
        else (fp.dateTo, ([] : List String))
      ({ dateFrom := fStep.1, dateTo := tStep.1 },
       fStep.2 ++ tStep.2 ++ wfb, false)
  else
    let nf :=
      if fp.dateFrom.isNone && optStrTruthy fb.dateFrom then fb.dateFrom
      else fp.dateFrom
    let nt :=
      if fp.dateTo.isNone && optStrTruthy fb.dateTo then fb.dateTo
      else fp.dateTo
    ({ dateFrom := nf, dateTo := nt }, wfb, false)

/-! Helper lemmas. -/

theorem collectSystems_eq (ss : List String) :
    collectSystems ss =
      ((ss.map normalizeKey).filter (fun k => decide (k ∈ SUPPORTED_SYSTEM_KEYS)),
       (ss.filter (fun s => !decide (normalizeKey s ∈ SUPPORTED_SYSTEM_KEYS))).map
         unknownSystemWarn) := by
  induction ss with
  | nil => rfl
  | cons s rest ih =>
    by_cases h : normalizeKey s ∈ SUPPORTED_SYSTEM_KEYS <;>
      simp [collectSystems, ih, h]

theorem resGet_init (k : EntityKind) : resGet k initResult = [] := by
  cases k <;> rfl

theorem stepDone_resGet (k : EntityKind) (acc : ExecResult)
    (p : AgentSpec × QueryOutcome) :
    resGet k (stepDone acc p) = resGet k acc ++ (okListOf k p).getD [] := by
  cases h : p.2 <;> cases k <;>
    simp [stepDone, okListOf, resGet, h, bundleGet, dedupBundle]

theorem foldDone_resGet (k : EntityKind) (ps : List (AgentSpec × QueryOutcome)) :
    ∀ acc : ExecResult,
      resGet k (ps.foldl stepDone acc) =
        resGet k acc ++ (ps.filterMap (okListOf k)).flatten := by
  induction ps with
  | nil => intro acc; simp
  | cons p ps ih =>
    intro acc
    rw [List.foldl_cons, ih, stepDone_resGet]
    cases h : p.2 <;> simp [okListOf, h]

theorem stepPending_resGet (k : EntityKind) (t : Int) (acc : ExecResult)
    (p : AgentSpec × QueryOutcome) :
    resGet k (stepPending t acc p) = resGet k acc := by
  cases k <;> rfl

theorem foldPending_resGet (k : EntityKind) (t : Int)
    (ps : List (AgentSpec × QueryOutcome)) :
    ∀ acc : ExecResult, resGet k (ps.foldl (stepPending t) acc) = resGet k acc := by
  induction ps with
  | nil => intro acc; rfl
  | cons p ps ih => intro acc; rw [List.foldl_cons, ih, stepPending_resGet]

theorem filterMap_donePart {β : Type} (f : (AgentSpec × QueryOutcome) → Option β)
    (hf : ∀ p : AgentSpec × QueryOutcome, isPend p.2 = true → f p = Option.none)
    (tasks : List (AgentSpec × QueryOutcome)) :
    (donePart tasks).filterMap f = tasks.filterMap f := by
  induction tasks with
  | nil => rfl
  | cons p ts ih =>
    unfold donePart at ih ⊢
    by_cases h : isPend p.2
    · simp [List.filter_cons, h, hf p h, ih, List.filterMap_cons]
    · simp only [Bool.not_eq_true] at h
      simp [List.filter_cons, h, ih, List.filterMap_cons]

theorem okListOf_pend (k : EntityKind) (p : AgentSpec × QueryOutcome)
    (hp : isPend p.2 = true) : okListOf k p = Option.none := by
  cases h : p.2 <;> simp [isPend, h] at hp ⊢ <;> simp [okListOf, h]

theorem execute_resGet (k : EntityKind) (t : Int)
    (tasks : List (AgentSpec × QueryOutcome)) :
    resGet k (execute t tasks) = (tasks.filterMap (okListOf k)).flatten := by
  unfold execute
  rw [foldPending_resGet, foldDone_resGet, resGet_init,
    filterMap_donePart (okListOf k) (okListOf_pend k)]
  rfl

theorem stepDone_errors (acc : ExecResult) (p : AgentSpec × QueryOutcome) :
    (stepDone acc p).errors = acc.errors ++ (failMsgOf p).toList := by
  cases h : p.2 <;> simp [stepDone, failMsgOf, h]

theorem foldDone_errors (ps : List (AgentSpec × QueryOutcome)) :
    ∀ acc : ExecResult,
      (ps.foldl stepDone acc).errors = acc.errors ++ ps.filterMap failMsgOf := by
  induction ps with
  | nil => intro acc; simp
  | cons p ps ih =>
    intro acc
    rw [List.foldl_cons, ih, stepDone_errors]
    cases h : p.2 <;> simp [failMsgOf, h]

theorem foldPending_errors (t : Int) (ps : List (AgentSpec × QueryOutcome)) :
    ∀ acc : ExecResult,
      (ps.foldl (stepPending t) acc).errors =
        acc.errors ++ ps.map (fun p => timeoutMsg p.1.name t) := by
  induction ps with
  | nil => intro acc; simp
  | cons p ps ih =>
    intro acc
    rw [List.foldl_cons, ih]
    simp [stepPending]

theorem failMsgOf_pend (p : AgentSpec × QueryOutcome)
    (hp : isPend p.2 = true) : failMsgOf p = Option.none := by
  cases h : p.2 <;> simp [isPend, h] at hp ⊢ <;> simp [failMsgOf, h]

theorem execute_errors (t : Int) (tasks : List (AgentSpec × QueryOutcome)) :
    (execute t tasks).errors =
      tasks.filterMap failMsgOf ++
        (pendPart tasks).map (fun p => timeoutMsg p.1.name t) := by
  unfold execute
  rw [foldPending_errors, foldDone_errors,
    filterMap_donePart failMsgOf failMsgOf_pend]
  rfl

/-! Claim theorems. -/

/-- C3: `Router.validate_systems` drops each entry whose normalized
(strip + lowercase) form is not in the supported set {erp, hr, fin},
emitting one warning per dropped entry; it collapses duplicate surviving
keys preserving first-seen order; `None` or the empty list resolve to all
supported systems with no warning; and when every entry was dropped it
resolves to all supported systems with exactly one extra degrade
warning. -/
theorem validate_systems_spec :
    (validate_systems Option.none = (SUPPORTED_SYSTEM_KEYS, [])) ∧
    (validate_systems (Option.some []) = (SUPPORTED_SYSTEM_KEYS, [])) ∧
    (∀ ss : List String, ss ≠ [] →
      validate_systems (Option.some ss) =
        (let kept := dedupStrings ((ss.map normalizeKey).filter
           (fun k => decide (k ∈ SUPPORTED_SYSTEM_KEYS)))
         let warns := (ss.filter (fun s =>
           !decide (normalizeKey s ∈ SUPPORTED_SYSTEM_KEYS))).map unknownSystemWarn
         if kept.isEmpty then (SUPPORTED_SYSTEM_KEYS, warns ++ [degradeWarn])
         else (kept, warns))) := by
  refine ⟨rfl, rfl, fun ss h => ?_⟩
  have hne : ss.isEmpty = false := by
    cases ss with
    | nil => exact absurd rfl h
    | cons a l => rfl
  simp only [validate_systems, hne, collectSystems_eq]
  rfl

/-- Witness for C3: the spec scenario `["erp","bogus","fin"]` resolves
to `["erp","fin"]` with exactly one warning naming "bogus". -/
theorem validate_systems_spec_witness :
    (["erp", "bogus", "fin"] ≠ ([] : List String)) ∧
    validate_systems (Option.some ["erp", "bogus", "fin"]) =
      (["erp", "fin"], [unknownSystemWarn "bogus"]) :=
  ⟨by decide, by
    rw [validate_systems_spec.2.2 ["erp", "bogus", "fin"] (by decide)]
    decide⟩

/-- C4 counterexample: a cap supplied as the string "7" parses to the
positive integer 7 but is NOT passed through unchanged (it is stored as
the int 7); and no fixed upper limit bounds the accepted values — for
every bound `B` the validator accepts `B + 1` (and beyond): caps above
the schema's documented maximum of 1000 pass through. -/
theorem validate_filter_params_limit_cx :
    ((validate_filter_params { limit := Option.some (PyVal.str "7") }).1.limit
        = Option.some (PyVal.int 7) ∧
      PyVal.int 7 ≠ PyVal.str "7") ∧
    ((validate_filter_params { limit := Option.some (PyVal.int 1001) }).1.limit
        = Option.some (PyVal.int 1001)) ∧
    ¬ (∃ B : Int, ∀ n : Int,
        (validate_filter_params { limit := Option.some (PyVal.int n) }).1.limit
          = Option.some (PyVal.int n) → n ≤ B) := by
  refine ⟨by decide, by decide, ?_⟩
  rintro ⟨B, hB⟩
  have hacc : (validate_filter_params
      { limit := Option.some (PyVal.int (max B 0 + 1)) }).1.limit
      = Option.some (PyVal.int (max B 0 + 1)) := by
    have hpos : ¬ (max B 0 + 1 ≤ 0) := by omega
    simp [validate_filter_params, pyIntOf, hpos]
  have := hB (max B 0 + 1) hacc
  omega

/-- C4 (amended): `Router.validate_filter_params` keeps the cap iff its
Python `int()` conversion succeeds and is positive; otherwise the key is
removed and exactly one warning is appended; the kept value is the
integer conversion (identical to the input only when the input already
is an integer); no upper bound is enforced. -/
theorem validate_filter_params_limit_spec (v : PyVal) (n : Int) :
    (pyIntOf v = Option.some n → 0 < n →
      (validate_filter_params { limit := Option.some v }).1.limit
          = Option.some (PyVal.int n) ∧
        (validate_filter_params { limit := Option.some v }).2 = []) ∧
    (pyIntOf v = Option.none →
      (validate_filter_params { limit := Option.some v }).1.limit = Option.none ∧
        (validate_filter_params { limit := Option.some v }).2 = [limitWarn v]) ∧
    (pyIntOf v = Option.some n → n ≤ 0 →
      (validate_filter_params { limit := Option.some v }).1.limit = Option.none ∧
        (validate_filter_params { limit := Option.some v }).2 = [limitWarn v]) := by
  refine ⟨fun h hpos => ?_, fun h => ?_, fun h hneg => ?_⟩
  · have : ¬ (n ≤ 0) := by omega
    simp [validate_filter_params, h, this]
  · simp [validate_filter_params, h]
  · have : n ≤ 0 := hneg
    simp [validate_filter_params, h, this]

/-- Witness for C4's amended theorem: the cap 50 is kept unchanged with
no warning. -/
theorem validate_filter_params_limit_spec_witness :
    (pyIntOf (PyVal.int 50) = Option.some 50 ∧ (0 : Int) < 50) ∧
    (validate_filter_params { limit := Option.some (PyVal.int 50) }).1.limit
        = Option.some (PyVal.int 50) ∧
      (validate_filter_params { limit := Option.some (PyVal.int 50) }).2 = [] :=
  ⟨⟨by decide, by decide⟩,
   (validate_filter_params_limit_spec (PyVal.int 50) 50).1 (by decide) (by decide)⟩

/-- C1 counterexample: in `nl_query`, a caller-supplied explicit timeout
(1234 ms) does NOT take precedence over an inferred one — the inferred
value 500 wins. -/
theorem nl_query_timeout_cx :
    nlFinalTimeout 1234 (Option.some 500) = 500 ∧ (500 : Int) ≠ 1234 := by
  decide

/-- C1 (amended): in `nl_query` a non-empty explicit source list takes
precedence over the inferred one (an absent or empty explicit list falls
back to the inferred list), while an inferred integer timeout always
takes precedence over the caller's timeout argument after being clamped
to [50, 60000]; with no inferred integer timeout the caller's value is
used as-is. -/
theorem nl_query_precedence (t it : Int) (isys : Option (List String))
    (sys : List String) (h : sys ≠ []) :
    nlFinalSystems (Option.some sys) isys = Option.some sys ∧
    nlFinalSystems Option.none isys = isys ∧
    nlFinalSystems (Option.some []) isys = isys ∧
    nlFinalTimeout t (Option.some it) = max 50 (min 60000 it) ∧
    nlFinalTimeout t Option.none = t ∧
    50 ≤ nlFinalTimeout t (Option.some it) ∧
    nlFinalTimeout t (Option.some it) ≤ 60000 := by
  have hne : sys.isEmpty = false := by
    cases sys with
    | nil => exact absurd rfl h
    | cons a l => rfl
  refine ⟨by simp [nlFinalSystems, hne], rfl, rfl, rfl, rfl, ?_, ?_⟩
  · exact le_max_left _ _
  · exact max_le (by norm_num) (min_le_left _ _)

/-- Witness for C1's amended theorem at concrete inputs. -/
theorem nl_query_precedence_witness :
    (["erp"] ≠ ([] : List String)) ∧
    (nlFinalSystems (Option.some ["erp"]) (Option.some ["fin"])
        = Option.some ["erp"] ∧
      nlFinalTimeout 5000 (Option.some 70000) = max 50 (min 60000 70000)) :=
  ⟨by decide,
   ⟨(nl_query_precedence 5000 70000 (Option.some ["fin"]) ["erp"] (by decide)).1,
    (nl_query_precedence 5000 70000 (Option.some ["fin"]) ["erp"]
      (by decide)).2.2.2.1⟩⟩

/-- C8 counterexample: with the enhancement switch off and the model
having returned both bounds, the time-anchor block keeps the model's
range but appends NO warning explaining which path won (the claim says a
warning is appended in either case). -/
theorem timeAnchor_cx :
    timeAnchor false
      { dateFrom := Option.some "2024-01-01", dateTo := Option.some "2024-02-01" }
      { dateFrom := Option.some "2024-03-01", dateTo := Option.some "2024-03-31" }
      [] =
    ({ dateFrom := Option.some "2024-01-01", dateTo := Option.some "2024-02-01" },
      [], false) := by
  decide

/-- C8 (amended): when the primary model call succeeded and the
deterministic recognizer produced both bounds, the enhancement switch on
makes the deterministic range override the model's and appends the
override warning; with the switch off the model's bounds are kept and
only missing bounds are filled, and the explanatory fill warning is
appended once per actually filled bound — hence not at all when the
model already supplied both. -/
theorem timeAnchor_spec (fp fb : TimeRange) (wfb : List String)
    (hf : optStrTruthy fb.dateFrom = true) (ht : optStrTruthy fb.dateTo = true) :
    (timeAnchor true fp fb wfb =
      ({ dateFrom := fb.dateFrom, dateTo := fb.dateTo },
        overrideWarn :: wfb, true)) ∧
    ((timeAnchor false fp fb wfb).1 =
      { dateFrom := if fp.dateFrom.isNone then fb.dateFrom else fp.dateFrom,
        dateTo := if fp.dateTo.isNone then fb.dateTo else fp.dateTo }) ∧
    ((timeAnchor false fp fb wfb).2.1 =
      (if fp.dateFrom.isNone then [fillWarn] else []) ++
      (if fp.dateTo.isNone then [fillWarn] else []) ++ wfb) ∧
    ((timeAnchor false fp fb wfb).2.2 = false) := by
  refine ⟨?_, ?_, ?_, ?_⟩
  · simp [timeAnchor, hf, ht]
  · by_cases h1 : fp.dateFrom.isNone <;> by_cases h2 : fp.dateTo.isNone <;>
      simp [timeAnchor, hf, ht, h1, h2]
  · by_cases h1 : fp.dateFrom.isNone <;> by_cases h2 : fp.dateTo.isNone <;>
      simp [timeAnchor, hf, ht, h1, h2]
  · simp [timeAnchor, hf, ht]

/-- Witness for C8's amended theorem: model returned only `date_to`;
with the switch off the missing `date_from` is filled and one fill
warning is appended. -/
theorem timeAnchor_spec_witness :
    (optStrTruthy (Option.some "2024-03-01") = true ∧
      optStrTruthy (Option.some "2024-03-31") = true) ∧
    (timeAnchor false { dateFrom := Option.none, dateTo := Option.some "B" }
        { dateFrom := Option.some "2024-03-01", dateTo := Option.some "2024-03-31" }
        []).2.1 =
      (if (Option.none : Option String).isNone then [fillWarn] else []) ++
      (if (Option.some "B" : Option String).isNone then [fillWarn] else []) ++ [] :=
  ⟨⟨by decide, by decide⟩,
   (timeAnchor_spec { dateFrom := Option.none, dateTo := Option.some "B" }
     { dateFrom := Option.some "2024-03-01", dateTo := Option.some "2024-03-31" }
     [] (by decide) (by decide)).2.2.1⟩

/-- C5: `Executor.execute` never raises (it is a total function into the
`ExecResult` structure, whose four entity-collection fields always
exist); when every queried source fails — completes with a caught error
or times out — all four collections are empty and the error list is
non-empty. -/
theorem execute_total_failure (t : Int) (tasks : List (AgentSpec × QueryOutcome))
    (hne : tasks ≠ [])
    (hfail : ∀ p ∈ tasks, isOk p.2 = false) :
    (execute t tasks).organizations = [] ∧
    (execute t tasks).persons = [] ∧
    (execute t tasks).customers = [] ∧
    (execute t tasks).transactions = [] ∧
    (execute t tasks).errors ≠ [] := by
  have hok : ∀ k : EntityKind, resGet k (execute t tasks) = [] := by
    intro k
    rw [execute_resGet]
    have hnilf : tasks.filterMap (okListOf k) = [] := by
      rw [List.filterMap_eq_nil_iff]
      intro p hp
      cases h : p.2 with
      | ok d dur =>
        have hcontra := hfail p hp
        rw [h] at hcontra
        simp [isOk] at hcontra
      | fail m dur => simp [okListOf, h]
      | pending => simp [okListOf, h]
    simp [hnilf]
  have herr : (execute t tasks).errors ≠ [] := by
    rw [execute_errors]
    obtain ⟨p, ps, rfl⟩ : ∃ p ps, tasks = p :: ps := by
      cases tasks with
      | nil => exact absurd rfl hne
      | cons a l => exact ⟨a, l, rfl⟩
    intro hcontra
    rw [List.append_eq_nil] at hcontra
    obtain ⟨h1, h2⟩ := hcontra
    cases h : p.2 with
    | ok d dur =>
      have hcontra := hfail p (by simp)
      rw [h] at hcontra
      simp [isOk] at hcontra
    | fail m dur =>
      have hm : m ∈ (p :: ps).filterMap failMsgOf :=
        List.mem_filterMap.mpr ⟨p, by simp, by simp [failMsgOf, h]⟩
      rw [h1] at hm
      cases hm
    | pending =>
      have hp : p ∈ pendPart (p :: ps) := by
        simp [pendPart, List.filter_cons, isPend, h]
      have hmem : timeoutMsg p.1.name t ∈
          (pendPart (p :: ps)).map (fun p => timeoutMsg p.1.name t) :=
        List.mem_map_of_mem _ hp
      rw [h2] at hmem
      cases hmem
  exact ⟨hok EntityKind.organizations, hok EntityKind.persons,
    hok EntityKind.customers, hok EntityKind.transactions, herr⟩

/-- Witness for C5: one source that failed with a caught error — the
result has all four collections empty and one error. -/
theorem execute_total_failure_witness :
    ((([(⟨"erp", "ERP系统"⟩, QueryOutcome.fail "ERP系统 查询失败: boom" 3)]) :
        List (AgentSpec × QueryOutcome)) ≠ [] ∧
      (∀ p ∈ ([(⟨"erp", "ERP系统"⟩, QueryOutcome.fail "ERP系统 查询失败: boom" 3)] :
          List (AgentSpec × QueryOutcome)), isOk p.2 = false)) ∧
    ((execute 5000 [(⟨"erp", "ERP系统"⟩,
        QueryOutcome.fail "ERP系统 查询失败: boom" 3)]).organizations = [] ∧
      (execute 5000 [(⟨"erp", "ERP系统"⟩,
        QueryOutcome.fail "ERP系统 查询失败: boom" 3)]).persons = [] ∧
      (execute 5000 [(⟨"erp", "ERP系统"⟩,
        QueryOutcome.fail "ERP系统 查询失败: boom" 3)]).customers = [] ∧
      (execute 5000 [(⟨"erp", "ERP系统"⟩,
        QueryOutcome.fail "ERP系统 查询失败: boom" 3)]).transactions = [] ∧
      (execute 5000 [(⟨"erp", "ERP系统"⟩,
        QueryOutcome.fail "ERP系统 查询失败: boom" 3)]).errors ≠ []) :=
  ⟨⟨by decide, by decide⟩,
   execute_total_failure 5000 _ (by decide) (by decide)⟩

theorem dictSet_absent {α : Type} (m : List (String × α)) (k : String) (v : α)
    (h : ∀ p ∈ m, p.1 ≠ k) : dictSet m k v = m ++ [(k, v)] := by
  have hany : m.any (fun p => decide (p.1 = k)) = false := by
    rw [List.any_eq_false]
    intro p hp
    simpa using h p hp
  simp [dictSet, hany]

theorem dictGet_of_mem_nodup {α : Type} :
    ∀ (m : List (String × α)) (k : String) (v : α),
      (m.map Prod.fst).Nodup → (k, v) ∈ m → dictGet m k = Option.some v := by
  intro m
  induction m with
  | nil => intro k v _ hm; cases hm
  | cons p m ih =>
    intro k v hnd hm
    rw [List.map_cons, List.nodup_cons] at hnd
    rcases List.mem_cons.mp hm with h | h
    · subst h
      simp [dictGet, List.find?_cons]
    · have hk : k ∈ m.map Prod.fst := List.mem_map.mpr ⟨(k, v), h, rfl⟩
      have hne : ¬ (p.1 = k) := fun e => hnd.1 (e ▸ hk)
      simp only [dictGet, List.find?_cons, hne, decide_eq_false hne, cond_false]
      exact ih k v hnd.2 h

theorem dict_foldl_append {α : Type}
    (key : (AgentSpec × QueryOutcome) → String)
    (val : (AgentSpec × QueryOutcome) → α) :
    ∀ (ps : List (AgentSpec × QueryOutcome)) (m : List (String × α)),
      (∀ p ∈ ps, ∀ q ∈ m, q.1 ≠ key p) → (ps.map key).Nodup →
      ps.foldl (fun acc p => dictSet acc (key p) (val p)) m =
        m ++ ps.map (fun p => (key p, val p)) := by
  intro ps
  induction ps with
  | nil => intro m _ _; simp
  | cons p ps ih =>
    intro m hfresh hnd
    rw [List.map_cons, List.nodup_cons] at hnd
    rw [List.foldl_cons,
      dictSet_absent m (key p) (val p) (fun q hq => hfresh p (by simp) q hq)]
    rw [ih (m ++ [(key p, val p)]) ?_ hnd.2]
    · simp
    · intro p' hp' q hq
      rcases List.mem_append.mp hq with hq | hq
      · exact hfresh p' (by simp [hp']) q hq
      · have heq : q = (key p, val p) := by simpa using hq
        subst heq
        intro e
        have e' : key p = key p' := e
        have h1 := hnd.1
        rw [e'] at h1
        exact h1 (List.mem_map.mpr ⟨p', hp', rfl⟩)

theorem stepDone_perDur (acc : ExecResult) (p : AgentSpec × QueryOutcome)
    (hp : isPend p.2 = false) :
    (stepDone acc p).perDur = dictSet acc.perDur p.1.key ((durOf p.2).getD 0) := by
  cases h : p.2 <;> simp [stepDone, durOf, h] <;> simp [isPend, h] at hp

theorem stepDone_perCounts (acc : ExecResult) (p : AgentSpec × QueryOutcome)
    (hp : isPend p.2 = false) :
    (stepDone acc p).perCounts =
      dictSet acc.perCounts p.1.key (countsEntryOf p).2 := by
  cases h : p.2 <;> simp [stepDone, countsEntryOf, h] <;> simp [isPend, h] at hp

theorem foldDone_perDur (ps : List (AgentSpec × QueryOutcome))
    (hnp : ∀ p ∈ ps, isPend p.2 = false) :
    ∀ acc : ExecResult,
      (ps.foldl stepDone acc).perDur =
        ps.foldl (fun m p => dictSet m p.1.key ((durOf p.2).getD 0)) acc.perDur := by
  induction ps with
  | nil => intro acc; rfl
  | cons p ps ih =>
    intro acc
    rw [List.foldl_cons, List.foldl_cons,
      ih (fun q hq => hnp q (by simp [hq]))]
    rw [stepDone_perDur acc p (hnp p (by simp))]

theorem foldDone_perCounts (ps : List (AgentSpec × QueryOutcome))
    (hnp : ∀ p ∈ ps, isPend p.2 = false) :
    ∀ acc : ExecResult,
      (ps.foldl stepDone acc).perCounts =
        ps.foldl (fun m p => dictSet m p.1.key (countsEntryOf p).2)
          acc.perCounts := by
  induction ps with
  | nil => intro acc; rfl
  | cons p ps ih =>
    intro acc
    rw [List.foldl_cons, List.foldl_cons,
      ih (fun q hq => hnp q (by simp [hq]))]
    rw [stepDone_perCounts acc p (hnp p (by simp))]

theorem foldPending_perDur (t : Int) (ps : List (AgentSpec × QueryOutcome)) :
    ∀ acc : ExecResult,
      (ps.foldl (stepPending t) acc).perDur =
        ps.foldl (fun m p => dictSet m p.1.key t) acc.perDur := by
  induction ps with
  | nil => intro acc; rfl
  | cons p ps ih =>
    intro acc
    rw [List.foldl_cons, List.foldl_cons, ih]
    rfl

theorem foldPending_perCounts (t : Int) (ps : List (AgentSpec × QueryOutcome)) :
    ∀ acc : ExecResult,
      (ps.foldl (stepPending t) acc).perCounts =
        ps.foldl (fun m p => dictSet m p.1.key zeroCounts) acc.perCounts := by
  induction ps with
  | nil => intro acc; rfl
  | cons p ps ih =>
    intro acc
    rw [List.foldl_cons, List.foldl_cons, ih]
    rfl

theorem donePart_append_pendPart_perm (tasks : List (AgentSpec × QueryOutcome)) :
    List.Perm (donePart tasks ++ pendPart tasks) tasks := by
  have h := List.filter_append_perm (fun p => !isPend p.2) tasks
  have heq : tasks.filter (fun p => !(!isPend p.2)) = pendPart tasks := by
    unfold pendPart
    congr 1
    funext p
    simp
  rw [heq] at h
  exact h

theorem mem_donePart {tasks : List (AgentSpec × QueryOutcome)}
    {p : AgentSpec × QueryOutcome} (hp : p ∈ tasks) (h : isPend p.2 = false) :
    p ∈ donePart tasks := by
  unfold donePart
  exact List.mem_filter.mpr ⟨hp, by simp [h]⟩

theorem mem_pendPart {tasks : List (AgentSpec × QueryOutcome)}
    {p : AgentSpec × QueryOutcome} (hp : p ∈ tasks) (h : isPend p.2 = true) :
    p ∈ pendPart tasks := by
  unfold pendPart
  exact List.mem_filter.mpr ⟨hp, by simp [h]⟩

theorem donePart_not_pend {tasks : List (AgentSpec × QueryOutcome)}
    {p : AgentSpec × QueryOutcome} (hp : p ∈ donePart tasks) :
    isPend p.2 = false := by
  have h := List.mem_filter.mp hp
  simpa using h.2

theorem execute_perDur (t : Int) (tasks : List (AgentSpec × QueryOutcome))
    (hnd : (tasks.map (fun p => p.1.key)).Nodup) :
    (execute t tasks).perDur =
      (donePart tasks).map (fun p => (p.1.key, (durOf p.2).getD 0)) ++
        (pendPart tasks).map (fun p => (p.1.key, t)) := by
  have hperm := (donePart_append_pendPart_perm tasks).map (fun p => p.1.key)
  have hnd2 := hperm.symm.nodup hnd
  rw [List.map_append, List.nodup_append] at hnd2
  obtain ⟨ndD, ndP, hdisj⟩ := hnd2
  have hnpD : ∀ p ∈ donePart tasks, isPend p.2 = false := fun p hp =>
    donePart_not_pend hp
  unfold execute
  rw [foldPending_perDur, foldDone_perDur _ hnpD]
  have h1 := dict_foldl_append (fun p => p.1.key) (fun p => (durOf p.2).getD 0)
    (donePart tasks) initResult.perDur
    (by intro p _ q hq; simp [initResult] at hq) ndD
  simp only [] at h1
  rw [h1]
  have hfresh2 : ∀ p ∈ pendPart tasks,
      ∀ q ∈ initResult.perDur ++
        (donePart tasks).map (fun p => (p.1.key, (durOf p.2).getD 0)),
      q.1 ≠ p.1.key := by
    intro p hp q hq
    rcases List.mem_append.mp hq with hq | hq
    · simp [initResult] at hq
    · obtain ⟨p', hp', rfl⟩ := List.mem_map.mp hq
      intro e
      have e' : p'.1.key = p.1.key := e
      apply hdisj (List.mem_map.mpr ⟨p', hp', rfl⟩)
      rw [e']
      exact List.mem_map.mpr ⟨p, hp, rfl⟩
  have h2 := dict_foldl_append (fun p => p.1.key) (fun _ => t)
    (pendPart tasks)
    (initResult.perDur ++
      (donePart tasks).map (fun p => (p.1.key, (durOf p.2).getD 0)))
    hfresh2 ndP
  simp only [] at h2
  rw [h2]
  simp [initResult]

theorem execute_perCounts (t : Int) (tasks : List (AgentSpec × QueryOutcome))
    (hnd : (tasks.map (fun p => p.1.key)).Nodup) :
    (execute t tasks).perCounts =
      (donePart tasks).map (fun p => (p.1.key, (countsEntryOf p).2)) ++
        (pendPart tasks).map (fun p => (p.1.key, zeroCounts)) := by
  have hperm := (donePart_append_pendPart_perm tasks).map (fun p => p.1.key)
  have hnd2 := hperm.symm.nodup hnd
  rw [List.map_append, List.nodup_append] at hnd2
  obtain ⟨ndD, ndP, hdisj⟩ := hnd2
  have hnpD : ∀ p ∈ donePart tasks, isPend p.2 = false := fun p hp =>
    donePart_not_pend hp
  unfold execute
  rw [foldPending_perCounts, foldDone_perCounts _ hnpD]
  have h1 := dict_foldl_append (fun p => p.1.key) (fun p => (countsEntryOf p).2)
    (donePart tasks) initResult.perCounts
    (by intro p _ q hq; simp [initResult] at hq) ndD
  simp only [] at h1
  rw [h1]
  have hfresh2 : ∀ p ∈ pendPart tasks,
      ∀ q ∈ initResult.perCounts ++
        (donePart tasks).map (fun p => (p.1.key, (countsEntryOf p).2)),
      q.1 ≠ p.1.key := by
    intro p hp q hq
    rcases List.mem_append.mp hq with hq | hq
    · simp [initResult] at hq
    · obtain ⟨p', hp', rfl⟩ := List.mem_map.mp hq
      intro e
      have e' : p'.1.key = p.1.key := e
      apply hdisj (List.mem_map.mpr ⟨p', hp', rfl⟩)
      rw [e']
      exact List.mem_map.mpr ⟨p, hp, rfl⟩
  have h2 := dict_foldl_append (fun p => p.1.key) (fun _ => zeroCounts)
    (pendPart tasks)
    (initResult.perCounts ++
      (donePart tasks).map (fun p => (p.1.key, (countsEntryOf p).2)))
    hfresh2 ndP
  simp only [] at h2
  rw [h2]
  simp [initResult]

theorem leadsWith_append (n b : List Char) : leadsWith n (n ++ b) = true := by
  induction n with
  | nil => rfl
  | cons c cs ih => simp [leadsWith, ih]

theorem hasSub_of_leadsWith (n h : List Char) (hl : leadsWith n h = true) :
    hasSub n h = true := by
  cases h with
  | nil =>
    cases n with
    | nil => rfl
    | cons c cs => simp [leadsWith] at hl
  | cons b bs => simp [hasSub, hl]

theorem hasSub_append_left (a n h : List Char) (hs : hasSub n h = true) :
    hasSub n (a ++ h) = true := by
  induction a with
  | nil => simpa
  | cons c cs ih => simp [hasSub, ih]

theorem strContains_of_split (hay needle : String) (a b : List Char)
    (h : hay.data = a ++ (needle.data ++ b)) : strContains hay needle = true := by
  unfold strContains
  rw [h]
  exact hasSub_append_left a _ _ (hasSub_of_leadsWith _ _ (leadsWith_append _ _))

theorem timeoutMsg_contains_name (name : String) (t : Int) :
    strContains (timeoutMsg name t) name = true := by
  apply strContains_of_split _ _ []
    ((" 查询超时（>" : String).data ++ ((toString t).data ++ ("ms）" : String).data))
  simp [timeoutMsg, List.append_assoc]

theorem timeoutMsg_contains_deadline (name : String) (t : Int) :
    strContains (timeoutMsg name t) (toString t) = true := by
  apply strContains_of_split _ _ (name.data ++ (" 查询超时（>" : String).data)
    (("ms）" : String).data)
  simp [timeoutMsg, List.append_assoc]

/-- C7 counterexample: for the finance source (metrics key "fin",
display name "财务系统"), a timeout is recorded with duration = deadline,
but the error string does NOT contain the source key `s` = "fin" — it
names the source only by its display name. -/
theorem executor_timeout_names_cx :
    (execute 5000 [(⟨"fin", "财务系统"⟩, QueryOutcome.pending)]).errors =
      ["财务系统 查询超时（>5000ms）"] ∧
    dictGet (execute 5000
        [(⟨"fin", "财务系统"⟩, QueryOutcome.pending)]).perDur "fin" =
      Option.some 5000 ∧
    (∀ e ∈ (execute 5000 [(⟨"fin", "财务系统"⟩, QueryOutcome.pending)]).errors,
      strContains e "fin" = false) := by
  refine ⟨by decide, by decide, by decide⟩

/-- C7 (amended): provided the selected sources have pairwise distinct
metrics keys (as the Router guarantees) and no completed source's
measured duration coincides exactly with the deadline value, a source's
recorded per-source duration equals the deadline exactly when it timed
out; a timed-out source contributes an error string that contains its
DISPLAY NAME (`system_name`) and the deadline value (the metrics key
itself need not occur in it), and its recorded counts are all zero; and
every selected source gets exactly one recorded duration and one
recorded counts entry per request. -/
theorem executor_timeout_semantics (t : Int)
    (tasks : List (AgentSpec × QueryOutcome))
    (hnd : (tasks.map (fun p => p.1.key)).Nodup)
    (hnc : ∀ p ∈ tasks, ∀ d : Int, durOf p.2 = Option.some d → d ≠ t) :
    (∀ p ∈ tasks,
      (dictGet (execute t tasks).perDur p.1.key = Option.some t ↔
        isPend p.2 = true)) ∧
    (∀ p ∈ tasks, isPend p.2 = true →
      timeoutMsg p.1.name t ∈ (execute t tasks).errors ∧
      strContains (timeoutMsg p.1.name t) p.1.name = true ∧
      strContains (timeoutMsg p.1.name t) (toString t) = true ∧
      dictGet (execute t tasks).perCounts p.1.key = Option.some zeroCounts) ∧
    List.Perm ((execute t tasks).perDur.map Prod.fst)
      (tasks.map (fun p => p.1.key)) ∧
    List.Perm ((execute t tasks).perCounts.map Prod.fst)
      (tasks.map (fun p => p.1.key)) := by
  have hDur := execute_perDur t tasks hnd
  have hCnt := execute_perCounts t tasks hnd
  have hkeyperm := (donePart_append_pendPart_perm tasks).map (fun p => p.1.key)
  have hpermDur : List.Perm ((execute t tasks).perDur.map Prod.fst)
      (tasks.map (fun p => p.1.key)) := by
    rw [hDur]
    simpa [List.map_append, List.map_map, Function.comp] using hkeyperm
  have hpermCnt : List.Perm ((execute t tasks).perCounts.map Prod.fst)
      (tasks.map (fun p => p.1.key)) := by
    rw [hCnt]
    simpa [List.map_append, List.map_map, Function.comp] using hkeyperm
  have hndDur : ((execute t tasks).perDur.map Prod.fst).Nodup :=
    hpermDur.symm.nodup hnd
  have hndCnt : ((execute t tasks).perCounts.map Prod.fst).Nodup :=
    hpermCnt.symm.nodup hnd
  have hlookupPend : ∀ p ∈ tasks, isPend p.2 = true →
      dictGet (execute t tasks).perDur p.1.key = Option.some t := by
    intro p hp hpend
    apply dictGet_of_mem_nodup _ _ _ hndDur
    rw [hDur]
    exact List.mem_append_right _
      (List.mem_map.mpr ⟨p, mem_pendPart hp hpend, rfl⟩)
  have hlookupDone : ∀ p ∈ tasks, isPend p.2 = false →
      dictGet (execute t tasks).perDur p.1.key =
        Option.some ((durOf p.2).getD 0) := by
    intro p hp hnp
    apply dictGet_of_mem_nodup _ _ _ hndDur
    rw [hDur]
    exact List.mem_append_left _
      (List.mem_map.mpr ⟨p, mem_donePart hp hnp, rfl⟩)
  refine ⟨?_, ?_, hpermDur, hpermCnt⟩
  · intro p hp
    constructor
    · intro hEq
      by_contra hnp
      rw [Bool.not_eq_true] at hnp
      have hlook := hlookupDone p hp hnp
      rw [hEq] at hlook
      cases h2 : p.2 with
      | ok d dur =>
        rw [h2] at hlook
        simp [durOf] at hlook
        exact hnc p hp dur (by rw [h2]; rfl) hlook.symm
      | fail m dur =>
        rw [h2] at hlook
        simp [durOf] at hlook
        exact hnc p hp dur (by rw [h2]; rfl) hlook.symm
      | pending =>
        rw [h2] at hnp
        simp [isPend] at hnp
    · intro hpend
      exact hlookupPend p hp hpend
  · intro p hp hpend
    refine ⟨?_, timeoutMsg_contains_name _ _, timeoutMsg_contains_deadline _ _, ?_⟩
    · rw [execute_errors]
      exact List.mem_append_right _
        (List.mem_map.mpr ⟨p, mem_pendPart hp hpend, rfl⟩)
    · apply dictGet_of_mem_nodup _ _ _ hndCnt
      rw [hCnt]
      exact List.mem_append_right _
        (List.mem_map.mpr ⟨p, mem_pendPart hp hpend, rfl⟩)

/-- Witness for C7's amended theorem: a timed-out fin source alongside a
completed erp source with measured duration 3 ≠ 5000. -/
theorem executor_timeout_semantics_witness :
    ((([(⟨"fin", "财务系统"⟩, QueryOutcome.pending),
        (⟨"erp", "ERP系统"⟩, QueryOutcome.ok emptyBundle 3)] :
        List (AgentSpec × QueryOutcome)).map (fun p => p.1.key)).Nodup) ∧
    (∀ p ∈ ([(⟨"fin", "财务系统"⟩, QueryOutcome.pending),
        (⟨"erp", "ERP系统"⟩, QueryOutcome.ok emptyBundle 3)] :
        List (AgentSpec × QueryOutcome)), ∀ d : Int,
      durOf p.2 = Option.some d → d ≠ 5000) ∧
    (∀ p ∈ ([(⟨"fin", "财务系统"⟩, QueryOutcome.pending),
        (⟨"erp", "ERP系统"⟩, QueryOutcome.ok emptyBundle 3)] :
        List (AgentSpec × QueryOutcome)),
      (dictGet (execute 5000 [(⟨"fin", "财务系统"⟩, QueryOutcome.pending),
          (⟨"erp", "ERP系统"⟩, QueryOutcome.ok emptyBundle 3)]).perDur p.1.key =
        Option.some 5000 ↔ isPend p.2 = true)) := by
  have hnc : ∀ p ∈ ([(⟨"fin", "财务系统"⟩, QueryOutcome.pending),
      (⟨"erp", "ERP系统"⟩, QueryOutcome.ok emptyBundle 3)] :
      List (AgentSpec × QueryOutcome)), ∀ d : Int,
      durOf p.2 = Option.some d → d ≠ 5000 := by
    intro p hp d hd
    rcases List.mem_cons.mp hp with rfl | hp2
    · simp [durOf] at hd
    · rcases List.mem_cons.mp hp2 with rfl | hp3
      · simp [durOf] at hd
        omega
      · cases hp3
  exact ⟨by decide, hnc,
    (executor_timeout_semantics 5000 _ (by decide) hnc).1⟩

theorem dedupByIdAux_congr : ∀ (l : List Entity) (s1 s2 : List String),
    (∀ x, x ∈ s1 ↔ x ∈ s2) → dedupByIdAux s1 l = dedupByIdAux s2 l := by
  intro l
  induction l with
  | nil => intro s1 s2 _; rfl
  | cons e l ih =>
    intro s1 s2 h
    cases hpk : e.pk with
    | none => simp only [dedupByIdAux, hpk, ih s1 s2 h]
    | some k =>
      by_cases hk : k.isEmpty
      · simp only [dedupByIdAux, hpk, hk, if_true, ih s1 s2 h]
      · by_cases hmem : k ∈ s1
        · have hmem2 : k ∈ s2 := (h k).mp hmem
          simp only [dedupByIdAux, hpk, hk]
          rw [if_neg (by simp [hk]), if_pos hmem, if_neg (by simp [hk]),
            if_pos hmem2]
          exact ih s1 s2 h
        · have hmem2 : k ∉ s2 := fun c => hmem ((h k).mpr c)
          have hcons : ∀ x, x ∈ (k :: s1) ↔ x ∈ (k :: s2) := by
            intro x
            simp [h x]
          simp only [dedupByIdAux, hpk, hk]
          rw [if_neg (by simp [hk]), if_neg hmem, if_neg (by simp [hk]),
            if_neg hmem2, ih _ _ hcons]

theorem dedupByIdAux_cons_seen :
    ∀ (l : List Entity) (seen : List String) (k : String),
      k.isEmpty = false →
      dedupByIdAux (k :: seen) l =
        dedupByIdAux seen (l.filter (fun j => !decide (j.pk = Option.some k))) := by
  intro l
  induction l with
  | nil => intro seen k _; rfl
  | cons e l ih =>
    intro seen k hk
    cases hpk : e.pk with
    | none =>
      rw [List.filter_cons]
      simp only [hpk]
      rw [if_pos (by simp)]
      simp only [dedupByIdAux, hpk, ih _ _ hk]
    | some k' =>
      by_cases hkk : k' = k
      · subst hkk
        rw [List.filter_cons]
        simp only [hpk]
        rw [if_neg (by simp)]
        simp only [dedupByIdAux, hpk]
        rw [if_neg (by simp [hk]), if_pos (by simp)]
        exact ih _ _ hk
      · by_cases hke : k'.isEmpty
        · rw [List.filter_cons]
          simp only [hpk]
          rw [if_pos (by simp [hkk])]
          simp only [dedupByIdAux, hpk, hke, if_true, ih _ _ hk]
        · by_cases hmem : k' ∈ seen
          · rw [List.filter_cons]
            simp only [hpk]
            rw [if_pos (by simp [hkk])]
            simp only [dedupByIdAux, hpk]
            rw [if_neg (by simp [hke]), if_pos (by simp [hmem]),
              if_neg (by simp [hke]), if_pos hmem]
            exact ih _ _ hk
          · have hnotmem : k' ∉ (k :: seen) := by
              simp [hkk, hmem]
            rw [List.filter_cons]
            simp only [hpk]
            rw [if_pos (by simp [hkk])]
            simp only [dedupByIdAux, hpk]
            rw [if_neg (by simp [hke]), if_neg hnotmem,
              if_neg (by simp [hke]), if_neg hmem]
            rw [dedupByIdAux_congr l (k' :: k :: seen) (k :: k' :: seen)
              (by intro x; constructor <;> intro hx <;> simp at hx ⊢ <;> tauto)]
            rw [ih (k' :: seen) k hk]

theorem dedupByIdAux_sublist :
    ∀ (l : List Entity) (seen : List String),
      List.Sublist (dedupByIdAux seen l) l := by
  intro l
  induction l with
  | nil => intro seen; simp [dedupByIdAux]
  | cons e l ih =>
    intro seen
    cases hpk : e.pk with
    | none =>
      simp only [dedupByIdAux, hpk]
      exact (ih seen).cons₂ e
    | some k =>
      by_cases hke : k.isEmpty
      · simp only [dedupByIdAux, hpk, hke, if_true]
        exact (ih seen).cons₂ e
      · by_cases hmem : k ∈ seen
        · simp only [dedupByIdAux, hpk]
          rw [if_neg (by simp [hke]), if_pos hmem]
          exact (ih seen).cons e
        · simp only [dedupByIdAux, hpk]
          rw [if_neg (by simp [hke]), if_neg hmem]
          exact (ih (k :: seen)).cons₂ e

theorem dedupByIdAux_length :
    ∀ (l : List Entity) (seen : List String),
      (dedupByIdAux seen l).length =
        (l.filter entKeyless).length +
          (dedupStringsAux seen (l.filterMap entKey)).length := by
  intro l
  induction l with
  | nil => intro seen; rfl
  | cons e l ih =>
    intro seen
    cases hpk : e.pk with
    | none =>
      have hkl : entKeyless e = true := by simp [entKeyless, hpk]
      have hek : entKey e = Option.none := by simp [entKey, hpk]
      simp only [dedupByIdAux, hpk, List.filter_cons, hkl, if_true,
        List.filterMap_cons, hek]
      simp [ih seen]
      omega
    | some k =>
      by_cases hke : k.isEmpty
      · have hkl : entKeyless e = true := by simp [entKeyless, hpk, hke]
        have hek : entKey e = Option.none := by simp [entKey, hpk, hke]
        simp only [dedupByIdAux, hpk, hke, if_true, List.filter_cons, hkl,
          List.filterMap_cons, hek]
        simp [ih seen]
        omega
      · have hkl : entKeyless e = false := by simp [entKeyless, hpk, hke]
        have hek : entKey e = Option.some k := by simp [entKey, hpk, hke]
        by_cases hmem : k ∈ seen
        · simp only [dedupByIdAux, hpk, List.filter_cons, hkl,
            List.filterMap_cons, hek]
          rw [if_neg (by simp [hke]), if_pos hmem]
          simp only [dedupStringsAux, if_pos hmem, Bool.false_eq_true,
            if_false]
          exact ih seen
        · simp only [dedupByIdAux, hpk, List.filter_cons, hkl,
            List.filterMap_cons, hek]
          rw [if_neg (by simp [hke]), if_neg hmem]
          simp only [dedupStringsAux, if_neg hmem, Bool.false_eq_true,
            if_false]
          simp [ih (k :: seen)]
          omega

/-- C6: within one source, `Executor._dedup_list_by_id` keeps the first
occurrence of each truthy primary key in order (later entities with the
same key are dropped), passes entities with a falsy key (None or empty)
through unfiltered, and the per-source recorded count therefore equals
the number of keyless entities plus the number of distinct truthy keys,
not the raw count. -/
theorem dedup_within_source :
    (∀ (e : Entity) (l : List Entity), entKeyless e = true →
      dedup_list_by_id (e :: l) = e :: dedup_list_by_id l) ∧
    (∀ (e : Entity) (l : List Entity) (k : String),
      e.pk = Option.some k → k.isEmpty = false →
      dedup_list_by_id (e :: l) =
        e :: dedup_list_by_id
          (l.filter (fun j => !decide (j.pk = Option.some k)))) ∧
    (∀ l : List Entity, List.Sublist (dedup_list_by_id l) l) ∧
    (∀ l : List Entity, (dedup_list_by_id l).length =
      (l.filter entKeyless).length +
        (dedupStrings (l.filterMap entKey)).length) ∧
    (∀ (a : AgentSpec) (data : Bundle) (dur t : Int),
      dictGet (execute t [(a, QueryOutcome.ok data dur)]).perCounts a.key =
        Option.some (bundleCounts (dedupBundle data))) := by
  refine ⟨?_, ?_, ?_, ?_, ?_⟩
  · intro e l hkl
    unfold dedup_list_by_id
    cases hpk : e.pk with
    | none => simp [dedupByIdAux, hpk]
    | some k =>
      have hke : k.isEmpty = true := by
        simpa [entKeyless, hpk] using hkl
      simp [dedupByIdAux, hpk, hke]
  · intro e l k hpk hke
    unfold dedup_list_by_id
    simp only [dedupByIdAux, hpk]
    rw [if_neg (by simp [hke]), if_neg (by simp)]
    rw [dedupByIdAux_cons_seen l [] k hke]
  · intro l
    exact dedupByIdAux_sublist l []
  · intro l
    exact dedupByIdAux_length l []
  · intro a data dur t
    have hstep : execute t [(a, QueryOutcome.ok data dur)] =
        stepDone initResult (a, QueryOutcome.ok data dur) := rfl
    rw [hstep]
    simp [stepDone, dictSet, dictGet, initResult, List.find?]

/-- Witness for C6: a source returning the same key "a" twice keeps only
the first occurrence, and the recorded count is the distinct count. -/
theorem dedup_within_source_witness :
    ((⟨Option.some "a", Option.none, Option.none, Option.none⟩ : Entity).pk =
        Option.some "a" ∧ ("a" : String).isEmpty = false) ∧
    dedup_list_by_id
        [⟨Option.some "a", Option.none, Option.none, Option.none⟩,
         ⟨Option.some "a", Option.none, Option.none, Option.none⟩] =
      (⟨Option.some "a", Option.none, Option.none, Option.none⟩ : Entity) ::
        dedup_list_by_id
          (([⟨Option.some "a", Option.none, Option.none, Option.none⟩] :
            List Entity).filter (fun j => !decide (j.pk = Option.some "a"))) :=
  ⟨⟨rfl, by decide⟩,
   dedup_within_source.2.1
     ⟨Option.some "a", Option.none, Option.none, Option.none⟩
     [⟨Option.some "a", Option.none, Option.none, Option.none⟩] "a" rfl
     (by decide)⟩

/-- C2 counterexample: a normalized filter with cap L = 1 (kept as-is by
the validator), two sources each returning two organizations; each
source is capped to 1, but the concatenated aggregate collection has
length 2 > 1. -/
theorem aggregate_cap_cx :
    (validate_filter_params { limit := Option.some (PyVal.int 1) }).1.limit
        = Option.some (PyVal.int 1) ∧
    (execute 5000
        [(⟨"erp", "ERP系统"⟩, QueryOutcome.ok
            (apply_filters (fun _ => Option.none)
              { limit := Option.some 1 }
              ⟨[⟨Option.some "e1", Option.none, Option.none, Option.some 0⟩,
                ⟨Option.some "e2", Option.none, Option.none, Option.some 0⟩],
               [], [], []⟩) 1),
         (⟨"hr", "HR系统"⟩, QueryOutcome.ok
            (apply_filters (fun _ => Option.none)
              { limit := Option.some 1 }
              ⟨[⟨Option.some "e3", Option.none, Option.none, Option.some 0⟩,
                ⟨Option.some "e4", Option.none, Option.none, Option.some 0⟩],
               [], [], []⟩) 1)]).organizations.length = 2 ∧
    ¬ (2 ≤ 1) :=
  ⟨by decide, by decide, by decide⟩

theorem filterMap_okListOf_length (k : EntityKind)
    (tasks : List (AgentSpec × QueryOutcome)) :
    (tasks.filterMap (okListOf k)).length =
      (tasks.filter (fun p => isOk p.2)).length := by
  induction tasks with
  | nil => rfl
  | cons p ts ih =>
    rw [List.filterMap_cons, List.filter_cons]
    cases h2 : p.2 with
    | ok d dur =>
      have e1 : okListOf k p = Option.some (bundleGet k (dedupBundle d)) := by
        unfold okListOf
        rw [h2]
      simp [e1, isOk, ih]
    | fail m dur =>
      have e1 : okListOf k p = Option.none := by
        unfold okListOf
        rw [h2]
      simp [e1, isOk, ih]
    | pending =>
      have e1 : okListOf k p = Option.none := by
        unfold okListOf
        rw [h2]
      simp [e1, isOk, ih]

/-- C2 (amended): the cap L is enforced PER SOURCE: each entity list a
single source returns after filtering has length at most L, and the
concatenated aggregate collection is bounded by L times the number of
successful sources (not by L itself). -/
theorem cap_per_source_and_aggregate (parse : String → Option Int)
    (f : Filters) (L : Int) (hL : f.limit = Option.some L) (hpos : 0 < L) :
    (∀ (k : EntityKind) (items : List Entity),
      (filterList parse f k items).length ≤ L.toNat) ∧
    (∀ (t : Int) (tasks : List (AgentSpec × QueryOutcome)),
      (∀ p ∈ tasks, ∀ (d : Bundle) (dur : Int),
        p.2 = QueryOutcome.ok d dur → ∃ b, d = apply_filters parse f b) →
      ∀ k : EntityKind,
        (resGet k (execute t tasks)).length ≤
          L.toNat * (tasks.filter (fun p => isOk p.2)).length) := by
  have htr : optIntTruthy f.limit = true := by
    rw [hL]
    simp [optIntTruthy]
    omega
  have hstep : ∀ l : List Entity,
      (if !l.isEmpty && optIntTruthy f.limit then pySlice l (f.limit.getD 0)
       else l).length ≤ L.toNat := by
    intro l
    by_cases hempty : l.isEmpty
    · have hnil : l = [] := List.isEmpty_iff.mp hempty
      subst hnil
      simp
    · have hcond : (!l.isEmpty && optIntTruthy f.limit) = true := by
        simp [hempty, htr]
      rw [hcond, if_pos rfl, hL]
      simp only [Option.getD_some, pySlice, if_pos hpos.le]
      rw [List.length_take]
      exact min_le_left _ _
  have hlen : ∀ (k : EntityKind) (items : List Entity),
      (filterList parse f k items).length ≤ L.toNat := by
    intro k items
    simp only [filterList]
    exact hstep _
  refine ⟨hlen, ?_⟩
  intro t tasks hsrc k
  rw [execute_resGet]
  have hjoin : ∀ (ls : List (List Entity)) (c : Nat),
      (∀ x ∈ ls, x.length ≤ c) → ls.flatten.length ≤ c * ls.length := by
    intro ls c h
    induction ls with
    | nil => simp
    | cons x ls ih =>
      have h1 := h x (by simp)
      have h2 := ih (fun y hy => h y (by simp [hy]))
      simp only [List.flatten_cons, List.length_append, List.length_cons]
      calc x.length + ls.flatten.length ≤ c + c * ls.length := by omega
      _ = c * (ls.length + 1) := by ring
  have hpiece : ∀ x ∈ tasks.filterMap (okListOf k), x.length ≤ L.toNat := by
    intro x hx
    obtain ⟨p, hp, hok⟩ := List.mem_filterMap.mp hx
    unfold okListOf at hok
    cases h2 : p.2 with
    | ok d dur =>
      rw [h2] at hok
      simp only [Option.some.injEq] at hok
      obtain ⟨b, rfl⟩ := hsrc p hp d dur h2
      have hsub : List.Sublist
          (bundleGet k (dedupBundle (apply_filters parse f b)))
          (bundleGet k (apply_filters parse f b)) := by
        cases k <;> exact dedupByIdAux_sublist _ []
      have hble : (bundleGet k (apply_filters parse f b)).length ≤ L.toNat := by
        cases k <;> exact hlen _ _
      have hlsub := hsub.length_le
      rw [hok] at hlsub
      omega
    | fail m dur =>
      rw [h2] at hok
      simp at hok
    | pending =>
      rw [h2] at hok
      simp at hok
  calc (tasks.filterMap (okListOf k)).flatten.length
      ≤ L.toNat * (tasks.filterMap (okListOf k)).length := hjoin _ _ hpiece
    _ = L.toNat * (tasks.filter (fun p => isOk p.2)).length := by
        rw [filterMap_okListOf_length]

/-- Witness for C2's amended theorem: with cap 2, a three-entity list is
cut to at most two entities. -/
theorem cap_per_source_witness :
    (({ limit := Option.some 2 } : Filters).limit = Option.some 2 ∧
      (0 : Int) < 2) ∧
    (filterList (fun _ => Option.none) { limit := Option.some 2 }
        EntityKind.organizations
        [⟨Option.some "e1", Option.none, Option.none, Option.some 0⟩,
         ⟨Option.some "e2", Option.none, Option.none, Option.some 0⟩,
         ⟨Option.some "e3", Option.none, Option.none, Option.some 0⟩]).length ≤
      (2 : Int).toNat :=
  ⟨⟨rfl, by decide⟩,
   (cap_per_source_and_aggregate (fun _ => Option.none)
     { limit := Option.some 2 } 2 rfl (by decide)).1 EntityKind.organizations
     [⟨Option.some "e1", Option.none, Option.none, Option.some 0⟩,
      ⟨Option.some "e2", Option.none, Option.none, Option.some 0⟩,
      ⟨Option.some "e3", Option.none, Option.none, Option.some 0⟩]⟩

theorem resolveBounds_bad (parse : String → Option Int) (df dt : Option String)
    (hbad : (optStrTruthy df = true ∧ parse (df.getD "") = Option.none) ∨
            (optStrTruthy dt = true ∧ parse (dt.getD "") = Option.none)) :
    resolveBounds parse df dt = (Option.none, Option.none) := by
  unfold resolveBounds
  rcases hbad with ⟨h1, h2⟩ | ⟨h1, h2⟩
  · rw [if_pos h1, h2]
  · by_cases hdf : optStrTruthy df = true
    · rw [if_pos hdf]
      cases hp : parse (df.getD "") with
      | none => rfl
      | some a => simp [h1, h2]
    · rw [if_neg hdf, if_pos h1, h2]

/-- C9: when `date_from` or `date_to` is present (truthy) but at least
one present bound fails to parse, `BaseAgent._apply_filters` silently
performs NO date filtering at all — both bounds are discarded, including
one that would have parsed — while the entity-type and cap filters are
still applied; no error is raised and the function records no warning
(it has no warning output at all). -/
theorem apply_filters_bad_date (parse : String → Option Int) (f : Filters)
    (b : Bundle)
    (hbad : (optStrTruthy f.dateFrom = true ∧
              parse (f.dateFrom.getD "") = Option.none) ∨
            (optStrTruthy f.dateTo = true ∧
              parse (f.dateTo.getD "") = Option.none)) :
    apply_filters parse f b =
      apply_filters parse
        { f with dateFrom := Option.none, dateTo := Option.none } b := by
  have hrb := resolveBounds_bad parse f.dateFrom f.dateTo hbad
  have hfl : ∀ (k : EntityKind) (items : List Entity),
      filterList parse f k items =
        filterList parse
          { f with dateFrom := Option.none, dateTo := Option.none } k items := by
    intro k items
    simp only [filterList, hrb]
    simp [optStrTruthy]
  simp only [apply_filters, hfl]

/-- Witness for C9: `date_from` unparsable, `date_to` parseable — the
result equals the result with no date bounds at all. -/
theorem apply_filters_bad_date_witness :
    (optStrTruthy (Option.some "zzz") = true ∧
      (if ("zzz" : String) = "2024-01-01" then Option.some (100 : Int)
        else Option.none) = Option.none) ∧
    apply_filters
        (fun s => if s = "2024-01-01" then Option.some (100 : Int)
          else Option.none)
        { dateFrom := Option.some "zzz", dateTo := Option.some "2024-01-01" }
        ⟨[⟨Option.none, Option.none, Option.none, Option.some 999⟩], [], [], []⟩ =
      apply_filters
        (fun s => if s = "2024-01-01" then Option.some (100 : Int)
          else Option.none)
        { dateFrom := Option.none, dateTo := Option.none }
        ⟨[⟨Option.none, Option.none, Option.none, Option.some 999⟩], [], [], []⟩ :=
  ⟨⟨by decide, by decide⟩,
   apply_filters_bad_date
     (fun s => if s = "2024-01-01" then Option.some (100 : Int) else Option.none)
     { dateFrom := Option.some "zzz", dateTo := Option.some "2024-01-01" }
     ⟨[⟨Option.none, Option.none, Option.none, Option.some 999⟩], [], [], []⟩
     (Or.inl ⟨by decide, by decide⟩)⟩

theorem mem_pySlice {α : Type} {e : α} {l : List α} {n : Int}
    (h : e ∈ pySlice l n) : e ∈ l := by
  unfold pySlice at h
  by_cases h0 : 0 ≤ n
  · rw [if_pos h0] at h
    exact (List.take_sublist _ _).subset h
  · rw [if_neg h0] at h
    exact (List.take_sublist _ _).subset h

theorem mem_cap_step {e : Entity} {l : List Entity} {lim : Option Int}
    (h : e ∈ (if (!l.isEmpty && optIntTruthy lim) = true then
      pySlice l (lim.getD 0) else l)) : e ∈ l := by
  by_cases hc : (!l.isEmpty && optIntTruthy lim) = true
  · rw [if_pos hc] at h
    exact mem_pySlice h
  · rw [if_neg hc] at h
    exact h

theorem not_mem_date_filtered {e : Entity} {l : List Entity} {c1 c2 : Bool}
    {p : Entity → Bool}
    (hc : l.isEmpty = false → c1 = true) (hc2 : c2 = true) (hp : p e = false) :
    e ∉ (if c1 = true then (if c2 = true then l.filter p else l) else l) := by
  by_cases hemp : l.isEmpty
  · have hnil : l = [] := List.isEmpty_iff.mp hemp
    subst hnil
    simp
  · rw [if_pos (hc (by simpa using hemp)), if_pos hc2]
    intro hmem
    have hpe := (List.mem_filter.mp hmem).2
    rw [hp] at hpe
    simp at hpe

/-- C10: whenever a parseable date bound is in effect (the bounds are
truthy and the parsing step yielded at least one bound), every entity
whose resolved time (`hire_date` for persons, `tx_date` for
transactions, `created_at` otherwise and as fallback) is `None` is
excluded from the returned list, even though no bound actually rules it
out. -/
theorem apply_filters_timeless_excluded (parse : String → Option Int)
    (f : Filters) (k : EntityKind) (items : List Entity) (e : Entity)
    (hpres : (optStrTruthy f.dateFrom || optStrTruthy f.dateTo) = true)
    (hb : ((resolveBounds parse f.dateFrom f.dateTo).1.isSome ||
           (resolveBounds parse f.dateFrom f.dateTo).2.isSome) = true)
    (ht : getItemTime k e = Option.none) :
    e ∉ filterList parse f k items := by
  intro hmem
  simp only [filterList] at hmem
  have hmem2 := mem_cap_step hmem
  exact not_mem_date_filtered (fun hne => by rw [hne, hpres]; rfl) hb
    (by simp [ht]) hmem2

/-- Witness for C10: with a parsed `date_to` bound in effect, an entity
with no `created_at` is excluded even though the bound would not rule it
out. -/
theorem apply_filters_timeless_excluded_witness :
    ((optStrTruthy (Option.none : Option String) ||
        optStrTruthy (Option.some "2024-01-01")) = true ∧
      ((resolveBounds
          (fun s => if s = "2024-01-01" then Option.some (100 : Int)
            else Option.none)
          Option.none (Option.some "2024-01-01")).1.isSome ||
        (resolveBounds
          (fun s => if s = "2024-01-01" then Option.some (100 : Int)
            else Option.none)
          Option.none (Option.some "2024-01-01")).2.isSome) = true ∧
      getItemTime EntityKind.customers
        ⟨Option.none, Option.none, Option.none, Option.none⟩ = Option.none) ∧
    (⟨Option.none, Option.none, Option.none, Option.none⟩ : Entity) ∉
      filterList
        (fun s => if s = "2024-01-01" then Option.some (100 : Int)
          else Option.none)
        { dateTo := Option.some "2024-01-01" } EntityKind.customers
        [⟨Option.none, Option.none, Option.none, Option.none⟩,
         ⟨Option.none, Option.none, Option.none, Option.some 50⟩] :=
  ⟨⟨by decide, by decide, by decide⟩,
   apply_filters_timeless_excluded
     (fun s => if s = "2024-01-01" then Option.some (100 : Int)
       else Option.none)
     { dateTo := Option.some "2024-01-01" } EntityKind.customers
     [⟨Option.none, Option.none, Option.none, Option.none⟩,
      ⟨Option.none, Option.none, Option.none, Option.some 50⟩]
     ⟨Option.none, Option.none, Option.none, Option.none⟩
     (by decide) (by decide) (by decide)⟩

end UCAP
